import Mathlib

/-!
Verification of the camlistore localdisk blob-storage receive pipeline
(`ReceiveBlob` in package `localdisk`) and the index batch-mutation type
(`batch` in package `index`), via a shallow embedding.

The filesystem is modelled as an association list from structured paths to
nodes; faults of the OS calls (`os.MkdirAll`, `ioutil.TempFile`, `io.Copy`,
`Sync`, `Close`, `os.Rename`, `os.Lstat`, `os.Link`) are injected through an
environment record, one field per fallible call, so that every early-return
path of the Go function is reachable in the model.
-/

set_option autoImplicit false

namespace Camli

/-- Modelled from the spec: a Partition is an opaque logical name identifying
a replication target (`blobserver.Partition` is not under src/). -/
abbrev Partition := String

/-- Modelled from the spec: ContentAddress is an external primitive
(`camli/blobref` is not under src/): a hash-algorithm tag plus digest bytes,
with equality by value. The digest is kept as a list of naturals. -/
structure BlobRef where
  hashName : String
  digest : List Nat
deriving DecidableEq

/-- Modelled from the spec: the content hash accumulator (`blobRef.Hash()` /
SHA-1, external to src/). Any concrete deterministic digest function serves;
we use a 160-bit polynomial accumulator over the byte stream. -/
def hashBytes (s : List Nat) : List Nat :=
  [s.foldl (fun a b => (a * 131 + b) % (2 ^ 160)) 5381]

/-- Modelled from the spec: `blobRef.HashMatches(hash)` compares the
accumulated digest of the streamed bytes with the claimed digest. -/
def BlobRef.HashMatches (ref : BlobRef) (s : List Nat) : Bool :=
  ref.digest = hashBytes s

/-- `blobref.SizedBlobRef`: a blob reference together with its observed size
(`Size int64` in the source; sizes are byte counts, kept as `Nat`). -/
structure SizedBlobRef where
  blobRef : BlobRef
  size : Nat
deriving DecidableEq

/-- Modelled from the spec: DiskLayout (`blobDirectoryName`, `blobFileName`,
`partitionBlobFileName`, from the localdisk package but not under src/) is a
deterministic, collision-free mapping from addresses to filesystem locations,
with temporary files in the blob's shard directory and each partition's
mirror in a partition-specific subtree. The three constructors encode the
three disjoint locations used by `ReceiveBlob`; `temp`'s extra component is
the unique suffix chosen by `ioutil.TempFile`. -/
inductive Path where
  | canonical (ref : BlobRef)
  | temp (ref : BlobRef) (uniq : Nat)
  | mirror (p : Partition) (ref : BlobRef)
deriving DecidableEq

/-- A filesystem node: a regular file with contents, or a non-regular node
(what `stat.IsRegular()` distinguishes). -/
inductive Node where
  | file (content : List Nat)
  | other
deriving DecidableEq

/-- The filesystem namespace under the storage root: paths mapped to nodes. -/
abbrev FS := List (Path × Node)

/-- Look up the node at a path. -/
def fsGet : FS → Path → Option Node
  | [], _ => none
  | (q, n) :: rest, p => if q = p then some n else fsGet rest p

/-- `os.Remove`: drop any entry at the path (no-op when absent, matching the
deferred cleanup firing after a successful rename). -/
def fsRemove : FS → Path → FS
  | [], _ => []
  | (q, n) :: rest, p => if q = p then fsRemove rest p else (q, n) :: fsRemove rest p

/-- Create or replace the node at a path (file creation / truncating write). -/
def fsSet (fs : FS) (p : Path) (n : Node) : FS :=
  (p, n) :: fsRemove fs p

/-- `os.Rename src dst`: move the node at `src` to `dst`, replacing any node
already at `dst` (POSIX rename semantics); no-op if `src` is absent. -/
def fsRename (fs : FS) (src dst : Path) : FS :=
  match fsGet fs src with
  | none => fs
  | some n => fsSet (fsRemove fs src) dst n

/-- What `os.Lstat` reports about a node: regularity and size. -/
structure StatInfo where
  regular : Bool
  size : Nat
deriving DecidableEq

/-- The stat information of a node. -/
def nodeStat : Node → StatInfo
  | .file c => ⟨true, c.length⟩
  | .other => ⟨false, 0⟩

/-- `os.Lstat`: stat the node at a path, if present. -/
def fsStat (fs : FS) (p : Path) : Option StatInfo :=
  (fsGet fs p).map nodeStat

/-- External interference with the committed file between the rename and the
re-stat (the "another writer truncated it" scenario of the spec): leave it
alone, replace its contents, or replace it with a non-regular node. -/
inductive Tamper where
  | keep
  | truncate (c : List Nat)
  | clobber
deriving DecidableEq

/-- Apply the external interference to the committed file. -/
def applyTamper : Tamper → Path → FS → FS
  | .keep, _, fs => fs
  | .truncate c, p, fs => fsSet fs p (.file c)
  | .clobber, p, fs => fsSet fs p .other

/-- The errors `ReceiveBlob` can return, one per early-return site:
`corruptBlob` is `CorruptBlobError`, `sizeMismatch` is the
"Written size didn't match." error, the two partition errors are the
`os.MkdirAll` / `os.Link` failures of the mirror loop. -/
inductive Err where
  | mkdirFailed
  | tempFileFailed
  | ioCopy
  | ioSync
  | ioClose
  | corruptBlob
  | renameFailed
  | lstatFailed
  | sizeMismatch
  | mkdirPartitionFailed (p : Partition)
  | linkFailed (p : Partition)
deriving DecidableEq

/-- Classifies an error as arising strictly before a completed commit rename
(a failing rename commits nothing, so it counts as pre-commit). -/
def Err.preCommit : Err → Bool
  | .mkdirFailed | .tempFileFailed | .ioCopy | .ioSync | .ioClose
  | .corruptBlob | .renameFailed => true
  | _ => false

/-- Fault-injection environment: one field per fallible OS call made by
`ReceiveBlob`, plus the unique temp-file suffix chosen by `ioutil.TempFile`
and the external interference applied after the commit rename.
`copyFailAfter = some n` makes `io.Copy` fail after writing `n` bytes. -/
structure Env where
  mkdirAllOk : Bool
  tempFileOk : Bool
  copyFailAfter : Option Nat
  syncOk : Bool
  closeOk : Bool
  renameOk : Bool
  lstatOk : Bool
  tamper : Tamper
  partitionMkdirOk : Partition → Bool
  linkOk : Partition → Bool
  tempUniq : Nat

/-- Modelled from the spec: `blobserver.DefaultPartition`, the implicit
well-known default partition. -/
def DefaultPartition : Partition := ""

/-- The outcome of a `ReceiveBlob` call, mirroring the Go function's named
returns `(blobGot, err)` as two independent fields, plus the resulting
filesystem state and the trace of `NotifyBlobReceived` calls in order. -/
structure RecvOut where
  blobGot : Option SizedBlobRef
  err : Option Err
  fs : FS
  notices : List (Partition × BlobRef)
deriving DecidableEq

/-- The injected fault (if any) that the mirror loop hits for a partition:
the `os.MkdirAll` error, else the `os.Link` error. -/
def partitionFault (env : Env) (p : Partition) : Option Err :=
  if env.partitionMkdirOk p = false then some (.mkdirPartitionFailed p)
  else if env.linkOk p = false then some (.linkFailed p)
  else none

/-- The mirror loop of `ReceiveBlob`: for each partition in order, make the
partition shard directory, then `os.Link(fileName, partitionFileName)`.
`os.Link` fails when the target already exists (EEXIST) or the source is
missing (ENOENT); the Go code returns any such error immediately, leaving
already-created links in place. Returns the Go `err` named-return plus the
filesystem after the loop stops. -/
def mirrorLoop (env : Env) (fs : FS) (fileName : Path) (blobRef : BlobRef) :
    List Partition → Option Err × FS
  | [] => (none, fs)
  | partition :: rest =>
    if env.partitionMkdirOk partition = false then
      (some (.mkdirPartitionFailed partition), fs)
    else if env.linkOk partition = false then
      (some (.linkFailed partition), fs)
    else
      match fsGet fs (Path.mirror partition blobRef) with
      | some _ => (some (.linkFailed partition), fs)
      | none =>
        match fsGet fs fileName with
        | none => (some (.linkFailed partition), fs)
        | some n => mirrorLoop env (fsSet fs (Path.mirror partition blobRef) n) fileName blobRef rest

/-- Shallow embedding of `(*diskStorage).ReceiveBlob` from the source: make
the shard directory, create a temp file there, stream the source into the
temp file and the hash accumulator, sync and close, check the digest against
the claimed address, rename onto the canonical name, re-stat and check
regularity and size, hard-link every mirror partition, then (on success only)
notify the default partition's hub followed by each mirror partition's hub in
order. The deferred cleanup removes the temp-file name on every exit where
`success` was never set; after the rename that name no longer exists, so the
removal is a no-op there. The `eog` image-viewer hook has no effect on any
modelled state and is omitted. -/
def ReceiveBlob (env : Env) (fs : FS) (blobRef : BlobRef) (source : List Nat)
    (mirrorPartitions : List Partition) : RecvOut :=
  if env.mkdirAllOk = false then ⟨none, some .mkdirFailed, fs, []⟩
  else if env.tempFileOk = false then ⟨none, some .tempFileFailed, fs, []⟩
  else
    match env.copyFailAfter with
    | some n =>
      ⟨none, some .ioCopy,
        fsRemove (fsSet fs (Path.temp blobRef env.tempUniq) (.file (source.take n)))
          (Path.temp blobRef env.tempUniq), []⟩
    | none =>
      if env.syncOk = false then
        ⟨none, some .ioSync,
          fsRemove (fsSet fs (Path.temp blobRef env.tempUniq) (.file source))
            (Path.temp blobRef env.tempUniq), []⟩
      else if env.closeOk = false then
        ⟨none, some .ioClose,
          fsRemove (fsSet fs (Path.temp blobRef env.tempUniq) (.file source))
            (Path.temp blobRef env.tempUniq), []⟩
      else if blobRef.HashMatches source = false then
        ⟨none, some .corruptBlob,
          fsRemove (fsSet fs (Path.temp blobRef env.tempUniq) (.file source))
            (Path.temp blobRef env.tempUniq), []⟩
      else if env.renameOk = false then
        ⟨none, some .renameFailed,
          fsRemove (fsSet fs (Path.temp blobRef env.tempUniq) (.file source))
            (Path.temp blobRef env.tempUniq), []⟩
      else
        let fs3 :=
          applyTamper env.tamper (Path.canonical blobRef)
            (fsRename (fsSet fs (Path.temp blobRef env.tempUniq) (.file source))
              (Path.temp blobRef env.tempUniq) (Path.canonical blobRef))
        if env.lstatOk = false then
          ⟨none, some .lstatFailed, fsRemove fs3 (Path.temp blobRef env.tempUniq), []⟩
        else
          match fsStat fs3 (Path.canonical blobRef) with
          | none => ⟨none, some .lstatFailed, fsRemove fs3 (Path.temp blobRef env.tempUniq), []⟩
          | some stat =>
            if stat.regular = false ∨ stat.size ≠ source.length then
              ⟨none, some .sizeMismatch, fsRemove fs3 (Path.temp blobRef env.tempUniq), []⟩
            else
              match mirrorLoop env fs3 (Path.canonical blobRef) blobRef mirrorPartitions with
              | (some e, fs4) => ⟨none, some e, fsRemove fs4 (Path.temp blobRef env.tempUniq), []⟩
              | (none, fs4) =>
                ⟨some ⟨blobRef, stat.size⟩, none, fs4,
                  (DefaultPartition, blobRef) :: mirrorPartitions.map (fun p => (p, blobRef))⟩

/-- A staged key/value operation, from `type mutation struct` in `index.go`:
a key, a value (used only when not a deletion), and the deletion flag. -/
structure mutation where
  key : String
  value : String
  delete : Bool
deriving DecidableEq

/-- `type batch struct` from `index.go`: the ordered list of staged
mutations. -/
structure batch where
  m : List mutation
deriving DecidableEq

/-- `func (b *batch) Set`: append a non-deleting mutation. -/
def batch.Set (b : batch) (key value : String) : batch :=
  ⟨b.m ++ [⟨key, value, false⟩]⟩

/-- `func (b *batch) Delete`: append a deleting mutation (the `value` field
is left at its zero value). -/
def batch.Delete (b : batch) (key : String) : batch :=
  ⟨b.m ++ [⟨key, "", true⟩]⟩

/-- The backing key/value store an `IndexStorage` implementation maintains
(the interface's implementations are not under src/). -/
abbrev KV := List (String × String)

/-- Modelled from the spec: a direct `Set(key, value)` on the backing store,
immediately visible. -/
def kvSet (kv : KV) (k v : String) : KV :=
  (k, v) :: kv.filter (fun e => e.1 ≠ k)

/-- Modelled from the spec: a direct `Delete(key)` on the backing store. -/
def kvDelete (kv : KV) (k : String) : KV :=
  kv.filter (fun e => e.1 ≠ k)

/-- Apply one staged mutation to the backing store (what `CommitBatch` does
to each staged operation). -/
def applyMutation (kv : KV) (mu : mutation) : KV :=
  if mu.delete then kvDelete kv mu.key else kvSet kv mu.key mu.value

/-- Modelled from the spec: `BeginBatch()` opens an empty staged mutation
set. -/
def BeginBatch : batch := ⟨[]⟩

/-- The actions available against an `IndexStorage` with one open batch:
direct mutations, staging through the batch, and committing the batch. -/
inductive IndexAction where
  | directSet (k v : String)
  | directDelete (k : String)
  | stageSet (k v : String)
  | stageDelete (k : String)
  | commitBatch
deriving DecidableEq

/-- Whether an action merely stages an operation on the batch. -/
def IndexAction.isStaging : IndexAction → Bool
  | .stageSet _ _ | .stageDelete _ => true
  | _ => false

/-- The combined state of the backing store and the open batch. -/
structure IndexState where
  store : KV
  b : batch
deriving DecidableEq

/-- One step of the `IndexStorage` contract: direct mutations hit the store,
staging goes through `batch.Set` / `batch.Delete` from the source, and
`CommitBatch` (modelled from the spec) applies every staged mutation to the
store as one unit and spends the batch. -/
def indexStep (x : IndexState) : IndexAction → IndexState
  | .directSet k v => ⟨kvSet x.store k v, x.b⟩
  | .directDelete k => ⟨kvDelete x.store k, x.b⟩
  | .stageSet k v => ⟨x.store, x.b.Set k v⟩
  | .stageDelete k => ⟨x.store, x.b.Delete k⟩
  | .commitBatch => ⟨x.b.m.foldl applyMutation x.store, ⟨[]⟩⟩

/-- Run a sequence of actions from a state. -/
def indexRun (x : IndexState) (ops : List IndexAction) : IndexState :=
  ops.foldl indexStep x

/-- A fault-free environment: every OS call succeeds, no interference. -/
def envOK : Env :=
  ⟨true, true, none, true, true, true, true, .keep, fun _ => true, fun _ => true, 0⟩

/-- A concrete blob reference whose digest matches the stream `[7]`. -/
def wRef : BlobRef := ⟨"sha1", hashBytes [7]⟩

/-- A concrete blob reference whose digest matches no stream used below. -/
def wBadRef : BlobRef := ⟨"sha1", []⟩
/-- Holds when every I/O call up to and including the post-commit `Lstat`
succeeds (no injected fault). -/
abbrev Env.ioOk (e : Env) : Prop :=
  e.mkdirAllOk = true ∧ e.tempFileOk = true ∧ e.copyFailAfter = none ∧
  e.syncOk = true ∧ e.closeOk = true ∧ e.renameOk = true ∧ e.lstatOk = true

/-- Holds when additionally no external writer touches the committed file
before the re-stat. -/
abbrev Env.okThroughCommit (e : Env) : Prop :=
  e.ioOk ∧ e.tamper = Tamper.keep

/-- Whether the interference makes the post-commit stat check fail for a
commit of `w` bytes. -/
def tamperViolates : Tamper → Nat → Bool
  | .keep, _ => false
  | .truncate c, w => c.length ≠ w
  | .clobber, _ => true

/-- The filesystem right after a fault-free commit rename: the temp file was
written with the full stream, then renamed onto the canonical name. -/
def commitFS (env : Env) (fs : FS) (blobRef : BlobRef) (source : List Nat) : FS :=
  fsSet (fsRemove (fsSet fs (Path.temp blobRef env.tempUniq) (.file source))
      (Path.temp blobRef env.tempUniq))
    (Path.canonical blobRef) (.file source)

/-- Environment whose `io.Copy` fails immediately. -/
def envCopyFail : Env := { envOK with copyFailAfter := some 0 }

/-- Environment in which an external writer truncates the committed file to
zero bytes before the re-stat. -/
def envTruncate : Env := { envOK with tamper := .truncate [] }

/-- Environment in which creating partition "p2"'s shard directory fails. -/
def envBadP2 : Env := { envOK with partitionMkdirOk := fun p => !(p == "p2") }

/-- Occurrence count of an element in a list (used to state the
once-per-partition notification property). -/
def countOcc {α : Type} [DecidableEq α] (x : α) : List α → Nat
  | [] => 0
  | y :: rest => (if y = x then 1 else 0) + countOcc x rest

theorem fsGet_fsRemove_self : ∀ (fs : FS) (p : Path), fsGet (fsRemove fs p) p = none
  | [], _ => rfl
  | (q, n) :: rest, p => by
    by_cases h : q = p
    · simpa [fsRemove, h] using fsGet_fsRemove_self rest p
    · simpa [fsRemove, fsGet, h] using fsGet_fsRemove_self rest p

theorem fsGet_fsRemove_ne : ∀ (fs : FS) (p q : Path), q ≠ p →
    fsGet (fsRemove fs p) q = fsGet fs q
  | [], _, _, _ => rfl
  | (a, n) :: rest, p, q, h => by
    by_cases ha : a = p
    · subst ha
      have haq : a ≠ q := fun hq => h hq.symm
      simpa [fsRemove, fsGet, haq] using fsGet_fsRemove_ne rest a q h
    · by_cases haq : a = q
      · subst haq
        simp [fsRemove, fsGet, ha]
      · simpa [fsRemove, fsGet, ha, haq] using fsGet_fsRemove_ne rest p q h

theorem fsGet_fsSet_self (fs : FS) (p : Path) (n : Node) :
    fsGet (fsSet fs p n) p = some n := by
  simp [fsSet, fsGet]

theorem fsGet_fsSet_ne (fs : FS) (p q : Path) (n : Node) (h : q ≠ p) :
    fsGet (fsSet fs p n) q = fsGet fs q := by
  have : p ≠ q := fun hq => h hq.symm
  simp [fsSet, fsGet, this, fsGet_fsRemove_ne fs p q h]

theorem fsRename_of_set (fs : FS) (p q : Path) (n : Node) :
    fsRename (fsSet fs p n) p q = fsSet (fsRemove (fsSet fs p n) p) q n := by
  simp [fsRename, fsGet_fsSet_self]

theorem fsStat_commitFS (env : Env) (fs : FS) (blobRef : BlobRef) (source : List Nat) :
    fsStat (commitFS env fs blobRef source) (Path.canonical blobRef) =
      some ⟨true, source.length⟩ := by
  simp [commitFS, fsStat, fsGet_fsSet_self, nodeStat]

theorem ReceiveBlob_committed (env : Env) (fs : FS) (blobRef : BlobRef) (source : List Nat)
    (parts : List Partition) (henv : env.okThroughCommit)
    (hh : blobRef.HashMatches source = true) :
    ReceiveBlob env fs blobRef source parts =
      match mirrorLoop env (commitFS env fs blobRef source) (Path.canonical blobRef)
          blobRef parts with
      | (some e, fs4) => ⟨none, some e, fsRemove fs4 (Path.temp blobRef env.tempUniq), []⟩
      | (none, fs4) => ⟨some ⟨blobRef, source.length⟩, none, fs4,
          (DefaultPartition, blobRef) :: parts.map (fun p => (p, blobRef))⟩ := by
  obtain ⟨⟨h1, h2, h3, h4, h5, h6, h7⟩, h8⟩ := henv
  unfold ReceiveBlob
  rw [h3]
  simp only [h1, h2, h4, h5, h6, h7, h8, hh, applyTamper, fsRename_of_set]
  rw [show fsSet (fsRemove (fsSet fs (Path.temp blobRef env.tempUniq) (Node.file source))
        (Path.temp blobRef env.tempUniq)) (Path.canonical blobRef) (Node.file source) =
      commitFS env fs blobRef source from rfl]
  rw [fsStat_commitFS]
  simp

theorem mirrorLoop_nil (env : Env) (fs : FS) (fileName : Path) (blobRef : BlobRef) :
    mirrorLoop env fs fileName blobRef [] = (none, fs) := by
  unfold mirrorLoop
  rfl

theorem mirrorLoop_frame (env : Env) (ref : BlobRef) (fileName : Path) :
    ∀ (parts : List Partition) (fs : FS) (q : Path),
      (∀ p ∈ parts, q ≠ Path.mirror p ref) →
      fsGet (mirrorLoop env fs fileName ref parts).2 q = fsGet fs q
  | [], _, _, _ => rfl
  | partition :: rest, fs, q, hq => by
    have hqp := hq partition (List.mem_cons_self _ _)
    have hrest : ∀ p ∈ rest, q ≠ Path.mirror p ref := fun p hp =>
      hq p (List.mem_cons_of_mem _ hp)
    unfold mirrorLoop
    by_cases h1 : env.partitionMkdirOk partition = false
    · simp [h1]
    · rw [if_neg h1]
      by_cases h2 : env.linkOk partition = false
      · simp [h2]
      · rw [if_neg h2]
        cases hm : fsGet fs (Path.mirror partition ref) with
        | some m => simp
        | none =>
          cases hc : fsGet fs fileName with
          | none => simp
          | some m =>
            have ih := mirrorLoop_frame env ref fileName rest
              (fsSet fs (Path.mirror partition ref) m) q hrest
            simpa [ih] using fsGet_fsSet_ne fs (Path.mirror partition ref) q m hqp

theorem mirrorLoop_ok (env : Env) (ref : BlobRef) (n : Node) :
    ∀ (parts : List Partition) (fs : FS),
      (∀ p ∈ parts, env.partitionMkdirOk p = true ∧ env.linkOk p = true ∧
        fsGet fs (Path.mirror p ref) = none) →
      parts.Nodup →
      fsGet fs (Path.canonical ref) = some n →
      (mirrorLoop env fs (Path.canonical ref) ref parts).1 = none ∧
      fsGet (mirrorLoop env fs (Path.canonical ref) ref parts).2 (Path.canonical ref) = some n ∧
      ∀ p ∈ parts,
        fsGet (mirrorLoop env fs (Path.canonical ref) ref parts).2 (Path.mirror p ref) = some n
  | [], fs, _, _, hc => ⟨rfl, hc, by simp⟩
  | partition :: rest, fs, hok, hnd, hc => by
    have hok0 := hok partition (List.mem_cons_self _ _)
    have hokr := fun p hp => hok p (List.mem_cons_of_mem _ hp)
    have h1 : ¬env.partitionMkdirOk partition = false := by simp [hok0.1]
    have h2 : ¬env.linkOk partition = false := by simp [hok0.2.1]
    have hnotmem : partition ∉ rest := (List.nodup_cons.mp hnd).1
    have hndr : rest.Nodup := (List.nodup_cons.mp hnd).2
    unfold mirrorLoop
    rw [if_neg h1, if_neg h2]
    cases hm : fsGet fs (Path.mirror partition ref) with
    | some m => rw [hok0.2.2] at hm; exact absurd hm (by simp)
    | none =>
      cases hcm : fsGet fs (Path.canonical ref) with
      | none => rw [hc] at hcm; exact absurd hcm (by simp)
      | some m =>
        have hmn : n = m := by rw [hc] at hcm; exact Option.some.inj hcm
        subst hmn
        have hcanne : Path.canonical ref ≠ Path.mirror partition ref := by simp
        have hokr2 : ∀ p ∈ rest, env.partitionMkdirOk p = true ∧ env.linkOk p = true ∧
            fsGet (fsSet fs (Path.mirror partition ref) n) (Path.mirror p ref) = none := by
          intro p hp
          have hpne : p ≠ partition := fun h => hnotmem (h ▸ hp)
          have hne : Path.mirror p ref ≠ Path.mirror partition ref := by simp [hpne]
          exact ⟨(hokr p hp).1, (hokr p hp).2.1,
            by rw [fsGet_fsSet_ne fs _ _ _ hne]; exact (hokr p hp).2.2⟩
        have hc2 : fsGet (fsSet fs (Path.mirror partition ref) n) (Path.canonical ref) =
            some n := by
          rw [fsGet_fsSet_ne fs _ _ _ hcanne]; exact hc
        have ih := mirrorLoop_ok env ref n rest (fsSet fs (Path.mirror partition ref) n)
          hokr2 hndr hc2
        refine ⟨ih.1, ih.2.1, ?_⟩
        intro p hp
        rcases List.mem_cons.mp hp with hp0 | hpr
        · subst hp0
          have hfr : ∀ p2 ∈ rest, Path.mirror p ref ≠ Path.mirror p2 ref := by
            intro p2 hp2
            have hne2 : p ≠ p2 := fun h => hnotmem (h ▸ hp2)
            simp [hne2]
          rw [mirrorLoop_frame env ref (Path.canonical ref) rest _ _ hfr]
          exact fsGet_fsSet_self fs _ n
        · exact ih.2.2 p hpr

theorem mirrorLoop_fail (env : Env) (ref : BlobRef) (n : Node) (pbad : Partition) (e : Err)
    (rest2 : List Partition) (hbad : partitionFault env pbad = some e) :
    ∀ (good : List Partition) (fs : FS),
      (∀ p ∈ good, env.partitionMkdirOk p = true ∧ env.linkOk p = true ∧
        fsGet fs (Path.mirror p ref) = none) →
      good.Nodup →
      fsGet fs (Path.canonical ref) = some n →
      (mirrorLoop env fs (Path.canonical ref) ref (good ++ pbad :: rest2)).1 = some e ∧
      fsGet (mirrorLoop env fs (Path.canonical ref) ref (good ++ pbad :: rest2)).2
        (Path.canonical ref) = some n ∧
      (∀ p ∈ good,
        fsGet (mirrorLoop env fs (Path.canonical ref) ref (good ++ pbad :: rest2)).2
          (Path.mirror p ref) = some n) ∧
      ∀ p, p ∉ good →
        fsGet (mirrorLoop env fs (Path.canonical ref) ref (good ++ pbad :: rest2)).2
          (Path.mirror p ref) = fsGet fs (Path.mirror p ref)
  | [], fs, _, _, hc => by
    unfold partitionFault at hbad
    by_cases h1 : env.partitionMkdirOk pbad = false
    · rw [if_pos h1] at hbad
      have he : Err.mkdirPartitionFailed pbad = e := Option.some.inj hbad
      subst he
      simp only [List.nil_append]
      unfold mirrorLoop
      rw [if_pos h1]
      exact ⟨rfl, hc, by simp, fun p _ => rfl⟩
    · rw [if_neg h1] at hbad
      by_cases h2 : env.linkOk pbad = false
      · rw [if_pos h2] at hbad
        have he : Err.linkFailed pbad = e := Option.some.inj hbad
        subst he
        simp only [List.nil_append]
        unfold mirrorLoop
        rw [if_neg h1, if_pos h2]
        exact ⟨rfl, hc, by simp, fun p _ => rfl⟩
      · rw [if_neg h2] at hbad
        exact absurd hbad (by simp)
  | partition :: good2, fs, hok, hnd, hc => by
    have hok0 := hok partition (List.mem_cons_self _ _)
    have hokr := fun p hp => hok p (List.mem_cons_of_mem _ hp)
    have h1 : ¬env.partitionMkdirOk partition = false := by simp [hok0.1]
    have h2 : ¬env.linkOk partition = false := by simp [hok0.2.1]
    have hnotmem : partition ∉ good2 := (List.nodup_cons.mp hnd).1
    have hndr : good2.Nodup := (List.nodup_cons.mp hnd).2
    simp only [List.cons_append]
    unfold mirrorLoop
    rw [if_neg h1, if_neg h2]
    cases hm : fsGet fs (Path.mirror partition ref) with
    | some m => rw [hok0.2.2] at hm; exact absurd hm (by simp)
    | none =>
      cases hcm : fsGet fs (Path.canonical ref) with
      | none => rw [hc] at hcm; exact absurd hcm (by simp)
      | some m =>
        have hmn : n = m := by rw [hc] at hcm; exact Option.some.inj hcm
        subst hmn
        have hcanne : Path.canonical ref ≠ Path.mirror partition ref := by simp
        have hokr2 : ∀ p ∈ good2, env.partitionMkdirOk p = true ∧ env.linkOk p = true ∧
            fsGet (fsSet fs (Path.mirror partition ref) n) (Path.mirror p ref) = none := by
          intro p hp
          have hpne : p ≠ partition := fun h => hnotmem (h ▸ hp)
          have hne : Path.mirror p ref ≠ Path.mirror partition ref := by simp [hpne]
          exact ⟨(hokr p hp).1, (hokr p hp).2.1,
            by rw [fsGet_fsSet_ne fs _ _ _ hne]; exact (hokr p hp).2.2⟩
        have hc2 : fsGet (fsSet fs (Path.mirror partition ref) n) (Path.canonical ref) =
            some n := by
          rw [fsGet_fsSet_ne fs _ _ _ hcanne]; exact hc
        have ih := mirrorLoop_fail env ref n pbad e rest2 hbad good2
          (fsSet fs (Path.mirror partition ref) n) hokr2 hndr hc2
        refine ⟨ih.1, ih.2.1, ?_, ?_⟩
        · intro p hp
          rcases List.mem_cons.mp hp with hp0 | hpr
          · subst hp0
            rw [ih.2.2.2 p hnotmem]
            exact fsGet_fsSet_self fs _ n
          · exact ih.2.2.1 p hpr
        · intro p hp
          have hpg : p ∉ good2 := fun h => hp (List.mem_cons_of_mem _ h)
          have hpne : p ≠ partition := fun h => hp (h ▸ List.mem_cons_self _ _)
          have hne : Path.mirror p ref ≠ Path.mirror partition ref := by simp [hpne]
          rw [ih.2.2.2 p hpg]
          exact fsGet_fsSet_ne fs _ _ _ hne
/-- Claim C2: when the computed hash of the streamed bytes does not match the
claimed address (and no earlier I/O fault preempts the check), `ReceiveBlob`
fails with `CorruptBlobError`, and afterwards no file exists at the temporary
path, nor at the canonical path provided none existed there beforehand. -/
theorem C2_corrupt_blob (env : Env) (fs : FS) (blobRef : BlobRef) (source : List Nat)
    (parts : List Partition)
    (h1 : env.mkdirAllOk = true) (h2 : env.tempFileOk = true)
    (h3 : env.copyFailAfter = none) (h4 : env.syncOk = true) (h5 : env.closeOk = true)
    (hm : blobRef.HashMatches source = false)
    (h0 : fsGet fs (Path.canonical blobRef) = none) :
    (ReceiveBlob env fs blobRef source parts).err = some Err.corruptBlob ∧
    fsGet (ReceiveBlob env fs blobRef source parts).fs (Path.temp blobRef env.tempUniq) = none ∧
    fsGet (ReceiveBlob env fs blobRef source parts).fs (Path.canonical blobRef) = none := by
  refine ⟨?_, ?_, ?_⟩ <;>
  · unfold ReceiveBlob
    rw [h3]
    simp [h1, h2, h4, h5, hm, fsGet_fsRemove_self, fsGet_fsRemove_ne, fsGet_fsSet_ne, h0]

/-- Witness for C2 at a concrete corrupt upload. -/
theorem C2_corrupt_blob_witness :
    wBadRef.HashMatches [7] = false ∧
    (ReceiveBlob envOK [] wBadRef [7] []).err = some Err.corruptBlob ∧
    fsGet (ReceiveBlob envOK [] wBadRef [7] []).fs (Path.temp wBadRef 0) = none ∧
    fsGet (ReceiveBlob envOK [] wBadRef [7] []).fs (Path.canonical wBadRef) = none :=
  ⟨by decide,
    C2_corrupt_blob envOK [] wBadRef [7] [] (by decide) (by decide) (by decide)
      (by decide) (by decide) (by decide) (by decide)⟩

/-- Claim C3: a fault-free receive of a stream whose hash matches the claimed
address, with no mirror partitions, succeeds and returns the claimed address
paired with the streamed length, which equals the size reported by a stat of
the committed canonical file. -/
theorem C3_receive_success (env : Env) (fs : FS) (blobRef : BlobRef) (source : List Nat)
    (henv : env.okThroughCommit) (hh : blobRef.HashMatches source = true) :
    (ReceiveBlob env fs blobRef source []).err = none ∧
    (ReceiveBlob env fs blobRef source []).blobGot = some ⟨blobRef, source.length⟩ ∧
    fsStat (ReceiveBlob env fs blobRef source []).fs (Path.canonical blobRef) =
      some ⟨true, source.length⟩ := by
  rw [ReceiveBlob_committed env fs blobRef source [] henv hh, mirrorLoop_nil]
  exact ⟨rfl, rfl, fsStat_commitFS env fs blobRef source⟩

/-- Witness for C3 at a concrete valid upload. -/
theorem C3_receive_success_witness :
    envOK.okThroughCommit ∧ wRef.HashMatches [7] = true ∧
    (ReceiveBlob envOK [] wRef [7] []).err = none ∧
    (ReceiveBlob envOK [] wRef [7] []).blobGot = some ⟨wRef, 1⟩ ∧
    fsStat (ReceiveBlob envOK [] wRef [7] []).fs (Path.canonical wRef) = some ⟨true, 1⟩ :=
  ⟨by decide, by decide, C3_receive_success envOK [] wRef [7] (by decide) (by decide)⟩

/-- Claim C8: receiving the identical (address, stream) twice succeeds both
times, the second result equals the first, and the commit rename replaces the
already-existing canonical file rather than failing. -/
theorem C8_idempotent_commit (env : Env) (fs : FS) (blobRef : BlobRef) (source : List Nat)
    (henv : env.okThroughCommit) (hh : blobRef.HashMatches source = true) :
    (ReceiveBlob env fs blobRef source []).err = none ∧
    (ReceiveBlob env (ReceiveBlob env fs blobRef source []).fs blobRef source []).err = none ∧
    (ReceiveBlob env (ReceiveBlob env fs blobRef source []).fs blobRef source []).blobGot =
      (ReceiveBlob env fs blobRef source []).blobGot ∧
    fsGet (ReceiveBlob env (ReceiveBlob env fs blobRef source []).fs blobRef source []).fs
      (Path.canonical blobRef) = some (Node.file source) := by
  have e1 : ReceiveBlob env fs blobRef source [] =
      ⟨some ⟨blobRef, source.length⟩, none, commitFS env fs blobRef source,
        [(DefaultPartition, blobRef)]⟩ := by
    rw [ReceiveBlob_committed env fs blobRef source [] henv hh, mirrorLoop_nil]
    exact rfl
  have e2 : ReceiveBlob env (commitFS env fs blobRef source) blobRef source [] =
      ⟨some ⟨blobRef, source.length⟩, none,
        commitFS env (commitFS env fs blobRef source) blobRef source,
        [(DefaultPartition, blobRef)]⟩ := by
    rw [ReceiveBlob_committed env (commitFS env fs blobRef source) blobRef source [] henv hh,
      mirrorLoop_nil]
    exact rfl
  simp only [e1]
  simp only [e2]
  simp [commitFS, fsGet_fsSet_self]

/-- Witness for C8 at a concrete duplicate upload. -/
theorem C8_idempotent_commit_witness :
    envOK.okThroughCommit ∧ wRef.HashMatches [7] = true ∧
    (ReceiveBlob envOK [] wRef [7] []).err = none ∧
    (ReceiveBlob envOK (ReceiveBlob envOK [] wRef [7] []).fs wRef [7] []).err = none ∧
    (ReceiveBlob envOK (ReceiveBlob envOK [] wRef [7] []).fs wRef [7] []).blobGot =
      (ReceiveBlob envOK [] wRef [7] []).blobGot ∧
    fsGet (ReceiveBlob envOK (ReceiveBlob envOK [] wRef [7] []).fs wRef [7] []).fs
      (Path.canonical wRef) = some (Node.file [7]) :=
  ⟨by decide, by decide, C8_idempotent_commit envOK [] wRef [7] (by decide) (by decide)⟩

/-- Claim C4: when every I/O call succeeds and the hash matches, but an
external writer changes the committed file between the rename and the
re-stat so that it is no longer a regular file of the streamed size, the
call fails with the "Written size didn't match." error while the
already-renamed canonical file is left in place. -/
theorem C4_verification_failed (env : Env) (fs : FS) (blobRef : BlobRef) (source : List Nat)
    (parts : List Partition) (hio : env.ioOk) (hh : blobRef.HashMatches source = true)
    (ht : tamperViolates env.tamper source.length = true) :
    (ReceiveBlob env fs blobRef source parts).err = some Err.sizeMismatch ∧
    (fsGet (ReceiveBlob env fs blobRef source parts).fs (Path.canonical blobRef)).isSome = true ∧
    fsGet (ReceiveBlob env fs blobRef source parts).fs (Path.temp blobRef env.tempUniq) = none := by
  obtain ⟨h1, h2, h3, h4, h5, h6, h7⟩ := hio
  unfold ReceiveBlob
  rw [h3]
  simp only [h1, h2, h4, h5, h6, h7, hh, fsRename_of_set]
  cases htam : env.tamper with
  | keep => rw [htam] at ht; exact absurd ht (by simp [tamperViolates])
  | truncate c =>
    rw [htam] at ht
    have hlen : c.length ≠ source.length := by simpa [tamperViolates] using ht
    refine ⟨?_, ?_, ?_⟩ <;>
      simp [applyTamper, fsStat, nodeStat, fsGet_fsSet_self, hlen,
        fsGet_fsRemove_self, fsGet_fsRemove_ne, fsGet_fsSet_ne]
  | clobber =>
    rw [htam] at ht
    refine ⟨?_, ?_, ?_⟩ <;>
      simp [applyTamper, fsStat, nodeStat, fsGet_fsSet_self,
        fsGet_fsRemove_self, fsGet_fsRemove_ne, fsGet_fsSet_ne]

/-- Witness for C4 at a concrete truncated-after-commit run. -/
theorem C4_verification_failed_witness :
    envTruncate.ioOk ∧ tamperViolates envTruncate.tamper 1 = true ∧
    (ReceiveBlob envTruncate [] wRef [7] []).err = some Err.sizeMismatch ∧
    (fsGet (ReceiveBlob envTruncate [] wRef [7] []).fs (Path.canonical wRef)).isSome = true ∧
    fsGet (ReceiveBlob envTruncate [] wRef [7] []).fs (Path.temp wRef 0) = none :=
  ⟨by decide, by decide,
    C4_verification_failed envTruncate [] wRef [7] [] (by decide) (by decide) (by decide)⟩
theorem fsGet_commitFS_ne (env : Env) (fs : FS) (blobRef : BlobRef) (source : List Nat)
    (q : Path) (hq1 : q ≠ Path.canonical blobRef) (hq2 : q ≠ Path.temp blobRef env.tempUniq) :
    fsGet (commitFS env fs blobRef source) q = fsGet fs q := by
  unfold commitFS
  rw [fsGet_fsSet_ne _ _ _ _ hq1, fsGet_fsRemove_ne _ _ _ hq2, fsGet_fsSet_ne _ _ _ _ hq2]

/-- Claim C5: mirror partitions are processed in caller order; with a
fault-free commit, when every partition in `good` succeeds and `pbad` then
hits a directory-creation or link fault, the whole call fails with that
error, the remaining partitions are never attempted (their mirror paths are
untouched), and neither the `good` mirrors already linked nor the committed
canonical file are undone. -/
theorem C5_mirror_fail_fast (env : Env) (fs : FS) (blobRef : BlobRef) (source : List Nat)
    (good rest2 : List Partition) (pbad : Partition) (e : Err)
    (henv : env.okThroughCommit) (hh : blobRef.HashMatches source = true)
    (hgood : ∀ p ∈ good, env.partitionMkdirOk p = true ∧ env.linkOk p = true ∧
      fsGet fs (Path.mirror p blobRef) = none)
    (hnd : good.Nodup)
    (hbad : partitionFault env pbad = some e) :
    (ReceiveBlob env fs blobRef source (good ++ pbad :: rest2)).err = some e ∧
    (ReceiveBlob env fs blobRef source (good ++ pbad :: rest2)).blobGot = none ∧
    fsGet (ReceiveBlob env fs blobRef source (good ++ pbad :: rest2)).fs
      (Path.canonical blobRef) = some (Node.file source) ∧
    (∀ p ∈ good, fsGet (ReceiveBlob env fs blobRef source (good ++ pbad :: rest2)).fs
      (Path.mirror p blobRef) = some (Node.file source)) ∧
    ∀ p, p ∉ good → fsGet (ReceiveBlob env fs blobRef source (good ++ pbad :: rest2)).fs
      (Path.mirror p blobRef) = fsGet fs (Path.mirror p blobRef) := by
  have hgood2 : ∀ p ∈ good, env.partitionMkdirOk p = true ∧ env.linkOk p = true ∧
      fsGet (commitFS env fs blobRef source) (Path.mirror p blobRef) = none := by
    intro p hp
    refine ⟨(hgood p hp).1, (hgood p hp).2.1, ?_⟩
    rw [fsGet_commitFS_ne env fs blobRef source _ (by simp) (by simp)]
    exact (hgood p hp).2.2
  have hcan : fsGet (commitFS env fs blobRef source) (Path.canonical blobRef) =
      some (Node.file source) := by simp [commitFS, fsGet_fsSet_self]
  have hfail := mirrorLoop_fail env blobRef (Node.file source) pbad e rest2 hbad good
    (commitFS env fs blobRef source) hgood2 hnd hcan
  rw [ReceiveBlob_committed env fs blobRef source (good ++ pbad :: rest2) henv hh]
  rcases hml : mirrorLoop env (commitFS env fs blobRef source) (Path.canonical blobRef)
      blobRef (good ++ pbad :: rest2) with ⟨oe, fs4⟩
  rw [hml] at hfail
  obtain ⟨hf1, hf2, hf3, hf4⟩ := hfail
  have hoe : oe = some e := hf1
  subst hoe
  refine ⟨rfl, rfl, ?_, ?_, ?_⟩
  · show fsGet (fsRemove fs4 (Path.temp blobRef env.tempUniq)) (Path.canonical blobRef) =
      some (Node.file source)
    rw [fsGet_fsRemove_ne _ _ _ (by simp)]
    exact hf2
  · intro p hp
    show fsGet (fsRemove fs4 (Path.temp blobRef env.tempUniq)) (Path.mirror p blobRef) =
      some (Node.file source)
    rw [fsGet_fsRemove_ne _ _ _ (by simp)]
    exact hf3 p hp
  · intro p hp
    show fsGet (fsRemove fs4 (Path.temp blobRef env.tempUniq)) (Path.mirror p blobRef) =
      fsGet fs (Path.mirror p blobRef)
    rw [fsGet_fsRemove_ne _ _ _ (by simp), hf4 p hp,
      fsGet_commitFS_ne env fs blobRef source _ (by simp) (by simp)]

/-- Witness for C5: partition "p1" succeeds, "p2"'s directory creation
fails, the canonical file and the "p1" mirror remain. -/
theorem C5_mirror_fail_fast_witness :
    partitionFault envBadP2 "p2" = some (Err.mkdirPartitionFailed "p2") ∧
    (ReceiveBlob envBadP2 [] wRef [7] ["p1", "p2"]).err =
      some (Err.mkdirPartitionFailed "p2") ∧
    fsGet (ReceiveBlob envBadP2 [] wRef [7] ["p1", "p2"]).fs (Path.canonical wRef) =
      some (Node.file [7]) ∧
    fsGet (ReceiveBlob envBadP2 [] wRef [7] ["p1", "p2"]).fs (Path.mirror "p1" wRef) =
      some (Node.file [7]) := by
  have h := C5_mirror_fail_fast envBadP2 [] wRef [7] ["p1"] [] "p2"
    (Err.mkdirPartitionFailed "p2") (by decide) (by decide) (by decide) (by decide) (by decide)
  exact ⟨by decide, h.1, h.2.2.1, h.2.2.2.1 "p1" (by decide)⟩

/-- Counterexample to claim C6: after a successful receive that mirrored to
"p1", retrying the identical receive with the same partition list does not
succeed — the hard link hits the already-existing mirror target, whose
content matches, and `ReceiveBlob` returns the link error. -/
theorem C6_cex :
    (ReceiveBlob envOK [] wRef [7] ["p1"]).err = none ∧
    fsGet (ReceiveBlob envOK [] wRef [7] ["p1"]).fs (Path.mirror "p1" wRef) =
      some (Node.file [7]) ∧
    (ReceiveBlob envOK (ReceiveBlob envOK [] wRef [7] ["p1"]).fs wRef [7] ["p1"]).err =
      some (Err.linkFailed "p1") := by decide

/-- Amended claim C6: a mirror link target that already exists — even with
content matching the blob — makes the `os.Link` call fail and `ReceiveBlob`
returns that error instead of treating the mirror as already satisfied, so a
retried receive with the same partitions fails; the committed canonical file
is still left in place. -/
theorem C6_amended_link_exists (env : Env) (fs : FS) (blobRef : BlobRef) (source : List Nat)
    (p : Partition) (henv : env.okThroughCommit) (hh : blobRef.HashMatches source = true)
    (hmk : env.partitionMkdirOk p = true) (hlk : env.linkOk p = true)
    (hex : fsGet fs (Path.mirror p blobRef) = some (Node.file source)) :
    (ReceiveBlob env fs blobRef source [p]).err = some (Err.linkFailed p) ∧
    (ReceiveBlob env fs blobRef source [p]).blobGot = none ∧
    fsGet (ReceiveBlob env fs blobRef source [p]).fs (Path.canonical blobRef) =
      some (Node.file source) := by
  have hex2 : fsGet (commitFS env fs blobRef source) (Path.mirror p blobRef) =
      some (Node.file source) := by
    rw [fsGet_commitFS_ne env fs blobRef source _ (by simp) (by simp)]
    exact hex
  have hml : mirrorLoop env (commitFS env fs blobRef source) (Path.canonical blobRef)
      blobRef [p] = (some (Err.linkFailed p), commitFS env fs blobRef source) := by
    unfold mirrorLoop
    rw [if_neg (by simp [hmk]), if_neg (by simp [hlk]), hex2]
  rw [ReceiveBlob_committed env fs blobRef source [p] henv hh, hml]
  refine ⟨rfl, rfl, ?_⟩
  show fsGet (fsRemove (commitFS env fs blobRef source) (Path.temp blobRef env.tempUniq))
      (Path.canonical blobRef) = some (Node.file source)
  rw [fsGet_fsRemove_ne _ _ _ (by simp)]
  simp [commitFS, fsGet_fsSet_self]

/-- Witness for the amended C6 at a concrete pre-existing mirror link. -/
theorem C6_amended_link_exists_witness :
    fsGet [(Path.mirror "p1" wRef, Node.file [7])] (Path.mirror "p1" wRef) =
      some (Node.file [7]) ∧
    (ReceiveBlob envOK [(Path.mirror "p1" wRef, Node.file [7])] wRef [7] ["p1"]).err =
      some (Err.linkFailed "p1") ∧
    fsGet (ReceiveBlob envOK [(Path.mirror "p1" wRef, Node.file [7])] wRef [7] ["p1"]).fs
      (Path.canonical wRef) = some (Node.file [7]) := by
  have h := C6_amended_link_exists envOK [(Path.mirror "p1" wRef, Node.file [7])] wRef [7]
    "p1" (by decide) (by decide) (by decide) (by decide) (by decide)
  exact ⟨by decide, h.1, h.2.2⟩
theorem ReceiveBlob_shape (env : Env) (fs : FS) (blobRef : BlobRef) (source : List Nat)
    (parts : List Partition) :
    ((ReceiveBlob env fs blobRef source parts).blobGot.isSome = true ∧
      (ReceiveBlob env fs blobRef source parts).err = none) ∨
    ((ReceiveBlob env fs blobRef source parts).blobGot = none ∧
      (ReceiveBlob env fs blobRef source parts).err.isSome = true ∧
      (ReceiveBlob env fs blobRef source parts).notices = []) := by
  unfold ReceiveBlob
  by_cases h1 : env.mkdirAllOk = false
  · simp [h1]
  rw [if_neg h1]
  by_cases h2 : env.tempFileOk = false
  · simp [h2]
  rw [if_neg h2]
  cases h3 : env.copyFailAfter with
  | some n => simp
  | none =>
    by_cases h4 : env.syncOk = false
    · simp [h4]
    rw [if_neg h4]
    by_cases h5 : env.closeOk = false
    · simp [h5]
    rw [if_neg h5]
    by_cases h6 : blobRef.HashMatches source = false
    · simp [h6]
    rw [if_neg h6]
    by_cases h7 : env.renameOk = false
    · simp [h7]
    rw [if_neg h7]
    by_cases h8 : env.lstatOk = false
    · simp [h8]
    rw [if_neg h8]
    cases h9 : fsStat (applyTamper env.tamper (Path.canonical blobRef)
        (fsRename (fsSet fs (Path.temp blobRef env.tempUniq) (Node.file source))
          (Path.temp blobRef env.tempUniq) (Path.canonical blobRef)))
        (Path.canonical blobRef) with
    | none => simp
    | some stat =>
      by_cases h10 : stat.regular = false ∨ stat.size ≠ source.length
      · simp [h10]
      · rcases h11 : mirrorLoop env (applyTamper env.tamper (Path.canonical blobRef)
            (fsRename (fsSet fs (Path.temp blobRef env.tempUniq) (Node.file source))
              (Path.temp blobRef env.tempUniq) (Path.canonical blobRef)))
            (Path.canonical blobRef) blobRef parts with ⟨oe, fs4⟩
        cases oe with
        | some e => simp [h10]
        | none => simp [h10]

theorem countOcc_eq_zero {α : Type} [DecidableEq α] (x : α) :
    ∀ l : List α, x ∉ l → countOcc x l = 0
  | [], _ => rfl
  | y :: rest, h => by
    have h1 : y ≠ x := fun he => h (he ▸ List.mem_cons_self _ _)
    simp [countOcc, h1,
      countOcc_eq_zero x rest (fun hm => h (List.mem_cons_of_mem _ hm))]

theorem countOcc_nodup_mem {α : Type} [DecidableEq α] (x : α) :
    ∀ l : List α, l.Nodup → x ∈ l → countOcc x l = 1
  | [], _, h => absurd h (by simp)
  | y :: rest, hnd, hmem => by
    rcases List.mem_cons.mp hmem with h0 | hr
    · subst h0
      simp [countOcc, countOcc_eq_zero x rest (List.nodup_cons.mp hnd).1]
    · have hne : y ≠ x := fun he => (List.nodup_cons.mp hnd).1 (he ▸ hr)
      simp [countOcc, hne, countOcc_nodup_mem x rest (List.nodup_cons.mp hnd).2 hr]

theorem countOcc_map_pair (ref : BlobRef) (p : Partition) :
    ∀ parts : List Partition,
      countOcc (p, ref) (parts.map (fun q => (q, ref))) = countOcc p parts
  | [] => rfl
  | q :: rest => by
    by_cases h : q = p
    · simp [countOcc, h, countOcc_map_pair ref p rest]
    · simp [countOcc, h, countOcc_map_pair ref p rest, Prod.mk.injEq]

/-- Claim C7: on a successful receive the notification trace is exactly the
default partition's hub first, then each requested mirror partition's hub in
the order the caller listed them; when the listed partitions are distinct
and do not include the default partition, each affected partition is
notified exactly once; and no failing call emits any notification. -/
theorem C7_notification_order (env : Env) (fs : FS) (blobRef : BlobRef) (source : List Nat)
    (parts : List Partition) (henv : env.okThroughCommit)
    (hh : blobRef.HashMatches source = true)
    (hgood : ∀ p ∈ parts, env.partitionMkdirOk p = true ∧ env.linkOk p = true ∧
      fsGet fs (Path.mirror p blobRef) = none)
    (hnd : parts.Nodup) :
    (ReceiveBlob env fs blobRef source parts).err = none ∧
    (ReceiveBlob env fs blobRef source parts).notices =
      (DefaultPartition, blobRef) :: parts.map (fun p => (p, blobRef)) ∧
    (DefaultPartition ∉ parts → ∀ p ∈ DefaultPartition :: parts,
      countOcc (p, blobRef) (ReceiveBlob env fs blobRef source parts).notices = 1) ∧
    ∀ (env2 : Env) (fs2 : FS) (ref2 : BlobRef) (source2 : List Nat)
      (parts2 : List Partition),
      (ReceiveBlob env2 fs2 ref2 source2 parts2).err.isSome = true →
      (ReceiveBlob env2 fs2 ref2 source2 parts2).notices = [] := by
  have hgood2 : ∀ p ∈ parts, env.partitionMkdirOk p = true ∧ env.linkOk p = true ∧
      fsGet (commitFS env fs blobRef source) (Path.mirror p blobRef) = none := by
    intro p hp
    refine ⟨(hgood p hp).1, (hgood p hp).2.1, ?_⟩
    rw [fsGet_commitFS_ne env fs blobRef source _ (by simp) (by simp)]
    exact (hgood p hp).2.2
  have hcan : fsGet (commitFS env fs blobRef source) (Path.canonical blobRef) =
      some (Node.file source) := by simp [commitFS, fsGet_fsSet_self]
  have hok := mirrorLoop_ok env blobRef (Node.file source) parts
    (commitFS env fs blobRef source) hgood2 hnd hcan
  have hmain : (ReceiveBlob env fs blobRef source parts).err = none ∧
      (ReceiveBlob env fs blobRef source parts).notices =
        (DefaultPartition, blobRef) :: parts.map (fun p => (p, blobRef)) := by
    rw [ReceiveBlob_committed env fs blobRef source parts henv hh]
    rcases hml : mirrorLoop env (commitFS env fs blobRef source) (Path.canonical blobRef)
        blobRef parts with ⟨oe, fs4⟩
    rw [hml] at hok
    have hoe : oe = none := hok.1
    subst hoe
    exact ⟨rfl, rfl⟩
  refine ⟨hmain.1, hmain.2, ?_, ?_⟩
  · intro hdef p hp
    rw [hmain.2]
    rcases List.mem_cons.mp hp with hp0 | hpr
    · subst hp0
      simp [countOcc, countOcc_map_pair, countOcc_eq_zero DefaultPartition parts hdef]
    · have hdp : DefaultPartition ≠ p := fun h => hdef (h ▸ hpr)
      simp [countOcc, hdp, Prod.mk.injEq, countOcc_map_pair,
        countOcc_nodup_mem p parts hnd hpr]
  · intro env2 fs2 ref2 source2 parts2 herr
    rcases ReceiveBlob_shape env2 fs2 ref2 source2 parts2 with hl | hr
    · rw [hl.2] at herr
      exact absurd herr (by simp)
    · exact hr.2.2

/-- Witness for C7: a receive mirrored to "p1" and "p2" notifies the default
partition, then "p1", then "p2". -/
theorem C7_notification_order_witness :
    (∀ p ∈ (["p1", "p2"] : List Partition), envOK.partitionMkdirOk p = true ∧
      envOK.linkOk p = true ∧ fsGet ([] : FS) (Path.mirror p wRef) = none) ∧
    (ReceiveBlob envOK [] wRef [7] ["p1", "p2"]).err = none ∧
    (ReceiveBlob envOK [] wRef [7] ["p1", "p2"]).notices =
      [(DefaultPartition, wRef), ("p1", wRef), ("p2", wRef)] := by
  have h := C7_notification_order envOK [] wRef [7] ["p1", "p2"] (by decide) (by decide)
    (by decide) (by decide)
  exact ⟨by decide, h.1, by rw [h.2.1]; rfl⟩

/-- Claim C10: every `ReceiveBlob` call returns exactly one of the two
outcomes — a present result with no error, or no result with an error; the
two named returns are never both set and never both empty. -/
theorem C10_result_xor_error (env : Env) (fs : FS) (blobRef : BlobRef) (source : List Nat)
    (parts : List Partition) :
    ((ReceiveBlob env fs blobRef source parts).blobGot.isSome = true ∧
      (ReceiveBlob env fs blobRef source parts).err = none) ∨
    ((ReceiveBlob env fs blobRef source parts).blobGot = none ∧
      (ReceiveBlob env fs blobRef source parts).err.isSome = true) := by
  rcases ReceiveBlob_shape env fs blobRef source parts with hl | hr
  · exact Or.inl hl
  · exact Or.inr ⟨hr.1, hr.2.1⟩
theorem cleanup_get (fs : FS) (blobRef : BlobRef) (u : Nat) (nd : Node)
    (h0 : fsGet fs (Path.canonical blobRef) = none) :
    fsGet (fsRemove (fsSet fs (Path.temp blobRef u) nd) (Path.temp blobRef u))
      (Path.temp blobRef u) = none ∧
    fsGet (fsRemove (fsSet fs (Path.temp blobRef u) nd) (Path.temp blobRef u))
      (Path.canonical blobRef) = none := by
  refine ⟨fsGet_fsRemove_self _ _, ?_⟩
  rw [fsGet_fsRemove_ne _ _ _ (by simp), fsGet_fsSet_ne _ _ _ _ (by simp)]
  exact h0

theorem mirrorLoop_err_not_preCommit (env : Env) (fileName : Path) (ref : BlobRef) :
    ∀ (parts : List Partition) (fs : FS) (e : Err) (fs4 : FS),
      mirrorLoop env fs fileName ref parts = (some e, fs4) → e.preCommit = false
  | [], fs, e, fs4, h => by simp [mirrorLoop] at h
  | partition :: rest, fs, e, fs4, h => by
    unfold mirrorLoop at h
    by_cases h1 : env.partitionMkdirOk partition = false
    · rw [if_pos h1] at h
      cases h
      rfl
    rw [if_neg h1] at h
    by_cases h2 : env.linkOk partition = false
    · rw [if_pos h2] at h
      cases h
      rfl
    rw [if_neg h2] at h
    cases hm : fsGet fs (Path.mirror partition ref) with
    | some m =>
      rw [hm] at h
      cases h
      rfl
    | none =>
      rw [hm] at h
      cases hc : fsGet fs fileName with
      | none =>
        rw [hc] at h
        cases h
        rfl
      | some n =>
        rw [hc] at h
        exact mirrorLoop_err_not_preCommit env fileName ref rest
          (fsSet fs (Path.mirror partition ref) n) e fs4 h

/-- Claim C1: with no pre-existing artifact at the call's temporary or
canonical path, a failure before a completed commit rename (directory
creation, temp-file creation, streaming, sync, close, the hash comparison,
or a failing rename, which commits nothing) leaves no artifact at either the
temporary or the canonical name — the deferred cleanup removes the temp
file; a failure at or after a completed rename, absent external
interference, leaves the canonical file exactly as committed (never removed
or rolled back), with nothing at the temporary name. -/
theorem C1_cleanup_invariant (env : Env) (fs : FS) (blobRef : BlobRef) (source : List Nat)
    (parts : List Partition)
    (h0 : fsGet fs (Path.canonical blobRef) = none)
    (h0t : fsGet fs (Path.temp blobRef env.tempUniq) = none) :
    (∀ e, (ReceiveBlob env fs blobRef source parts).err = some e → e.preCommit = true →
      fsGet (ReceiveBlob env fs blobRef source parts).fs (Path.temp blobRef env.tempUniq) = none ∧
      fsGet (ReceiveBlob env fs blobRef source parts).fs (Path.canonical blobRef) = none) ∧
    (env.tamper = Tamper.keep →
      ∀ e, (ReceiveBlob env fs blobRef source parts).err = some e → e.preCommit = false →
      fsGet (ReceiveBlob env fs blobRef source parts).fs (Path.canonical blobRef) =
        some (Node.file source) ∧
      fsGet (ReceiveBlob env fs blobRef source parts).fs (Path.temp blobRef env.tempUniq) =
        none) := by
  unfold ReceiveBlob
  by_cases h1 : env.mkdirAllOk = false
  · rw [if_pos h1]
    refine ⟨fun e he _ => ⟨h0t, h0⟩, fun htam e he hpost => ?_⟩
    have he2 := Option.some.inj he
    subst he2
    simp [Err.preCommit] at hpost
  rw [if_neg h1]
  by_cases h2 : env.tempFileOk = false
  · rw [if_pos h2]
    refine ⟨fun e he _ => ⟨h0t, h0⟩, fun htam e he hpost => ?_⟩
    have he2 := Option.some.inj he
    subst he2
    simp [Err.preCommit] at hpost
  rw [if_neg h2]
  rcases h3 : env.copyFailAfter with _ | n
  rotate_left
  · refine ⟨fun e he _ => cleanup_get fs blobRef env.tempUniq _ h0,
      fun htam e he hpost => ?_⟩
    have he2 := Option.some.inj he
    subst he2
    simp [Err.preCommit] at hpost
  by_cases h4 : env.syncOk = false
  · rw [if_pos h4]
    refine ⟨fun e he _ => cleanup_get fs blobRef env.tempUniq _ h0,
      fun htam e he hpost => ?_⟩
    have he2 := Option.some.inj he
    subst he2
    simp [Err.preCommit] at hpost
  rw [if_neg h4]
  by_cases h5 : env.closeOk = false
  · rw [if_pos h5]
    refine ⟨fun e he _ => cleanup_get fs blobRef env.tempUniq _ h0,
      fun htam e he hpost => ?_⟩
    have he2 := Option.some.inj he
    subst he2
    simp [Err.preCommit] at hpost
  rw [if_neg h5]
  by_cases h6 : blobRef.HashMatches source = false
  · rw [if_pos h6]
    refine ⟨fun e he _ => cleanup_get fs blobRef env.tempUniq _ h0,
      fun htam e he hpost => ?_⟩
    have he2 := Option.some.inj he
    subst he2
    simp [Err.preCommit] at hpost
  rw [if_neg h6]
  by_cases h7 : env.renameOk = false
  · rw [if_pos h7]
    refine ⟨fun e he _ => cleanup_get fs blobRef env.tempUniq _ h0,
      fun htam e he hpost => ?_⟩
    have he2 := Option.some.inj he
    subst he2
    simp [Err.preCommit] at hpost
  rw [if_neg h7]
  by_cases h8 : env.lstatOk = false
  · rw [if_pos h8]
    refine ⟨fun e he hpre => ?_, fun htam e he hpost => ?_⟩
    · have he2 := Option.some.inj he
      subst he2
      simp [Err.preCommit] at hpre
    · rw [htam]
      simp only [applyTamper, fsRename_of_set]
      refine ⟨?_, fsGet_fsRemove_self _ _⟩
      rw [fsGet_fsRemove_ne _ _ _ (by simp), fsGet_fsSet_self]
  rw [if_neg h8]
  rcases h9 : fsStat (applyTamper env.tamper (Path.canonical blobRef)
      (fsRename (fsSet fs (Path.temp blobRef env.tempUniq) (Node.file source))
        (Path.temp blobRef env.tempUniq) (Path.canonical blobRef)))
      (Path.canonical blobRef) with _ | stat
  · refine ⟨fun e he hpre => ?_, fun htam e he hpost => ?_⟩
    · have he2 := Option.some.inj he
      subst he2
      simp [Err.preCommit] at hpre
    · rw [htam] at h9
      simp only [applyTamper, fsRename_of_set] at h9
      simp [fsStat, fsGet_fsSet_self] at h9
  dsimp only
  by_cases h10 : stat.regular = false ∨ stat.size ≠ source.length
  · rw [if_pos h10]
    refine ⟨fun e he hpre => ?_, fun htam e he hpost => ?_⟩
    · have he2 := Option.some.inj he
      subst he2
      simp [Err.preCommit] at hpre
    · rw [htam] at h9
      simp only [applyTamper, fsRename_of_set] at h9
      simp [fsStat, fsGet_fsSet_self, nodeStat] at h9
      subst h9
      simp at h10
  rw [if_neg h10]
  rcases h11 : mirrorLoop env (applyTamper env.tamper (Path.canonical blobRef)
      (fsRename (fsSet fs (Path.temp blobRef env.tempUniq) (Node.file source))
        (Path.temp blobRef env.tempUniq) (Path.canonical blobRef)))
      (Path.canonical blobRef) blobRef parts with ⟨oe, fs4⟩
  cases oe with
  | some e4 =>
    refine ⟨fun e he hpre => ?_, fun htam e he hpost => ?_⟩
    · have he2 := Option.some.inj he
      subst he2
      rw [mirrorLoop_err_not_preCommit env (Path.canonical blobRef) blobRef parts _ _ _ h11]
        at hpre
      cases hpre
    · refine ⟨?_, fsGet_fsRemove_self _ _⟩
      have hfr := mirrorLoop_frame env blobRef (Path.canonical blobRef) parts
        (applyTamper env.tamper (Path.canonical blobRef)
          (fsRename (fsSet fs (Path.temp blobRef env.tempUniq) (Node.file source))
            (Path.temp blobRef env.tempUniq) (Path.canonical blobRef)))
        (Path.canonical blobRef) (fun p _ => by simp)
      rw [h11] at hfr
      rw [htam] at hfr
      simp only [applyTamper, fsRename_of_set] at hfr
      rw [fsGet_fsSet_self] at hfr
      rw [fsGet_fsRemove_ne _ _ _ (by simp)]
      exact hfr
  | none =>
    refine ⟨fun e he _ => ?_, fun htam e he _ => ?_⟩
    · exact absurd he (by simp)
    · exact absurd he (by simp)

/-- Witness for C1: a run whose stream copy fails leaves neither a temp nor
a canonical artifact. -/
theorem C1_cleanup_invariant_witness :
    fsGet ([] : FS) (Path.canonical wRef) = none ∧
    fsGet ([] : FS) (Path.temp wRef 0) = none ∧
    fsGet (ReceiveBlob envCopyFail [] wRef [7] []).fs (Path.temp wRef 0) = none ∧
    fsGet (ReceiveBlob envCopyFail [] wRef [7] []).fs (Path.canonical wRef) = none := by
  have h := (C1_cleanup_invariant envCopyFail [] wRef [7] [] (by decide) (by decide)).1
    Err.ioCopy (by decide) (by decide)
  exact ⟨by decide, by decide, h.1, h.2⟩

theorem indexRun_staging_store (ops : List IndexAction) :
    ∀ x : IndexState, (∀ op ∈ ops, op.isStaging = true) →
      (indexRun x ops).store = x.store := by
  induction ops with
  | nil => intro x _; rfl
  | cons op rest ih =>
    intro x h
    have hop := h op (List.mem_cons_self _ _)
    have hrest := fun o ho => h o (List.mem_cons_of_mem _ ho)
    cases op with
    | directSet k v => simp [IndexAction.isStaging] at hop
    | directDelete k => simp [IndexAction.isStaging] at hop
    | commitBatch => simp [IndexAction.isStaging] at hop
    | stageSet k v =>
      rw [show indexRun x (IndexAction.stageSet k v :: rest) =
        indexRun ⟨x.store, x.b.Set k v⟩ rest from rfl]
      rw [ih _ hrest]
    | stageDelete k =>
      rw [show indexRun x (IndexAction.stageDelete k :: rest) =
        indexRun ⟨x.store, x.b.Delete k⟩ rest from rfl]
      rw [ih _ hrest]

/-- Claim C9: staging any sequence of set and delete operations on the batch
obtained from `BeginBatch` leaves the backing key/value store unchanged as
long as `CommitBatch` is never invoked — only the batch's staged-operation
list is mutated. -/
theorem C9_batch_staging_frame (kv : KV) (ops : List IndexAction)
    (h : ∀ op ∈ ops, op.isStaging = true) :
    (indexRun ⟨kv, BeginBatch⟩ ops).store = kv :=
  indexRun_staging_store ops ⟨kv, BeginBatch⟩ h

/-- Witness for C9: three staged operations leave the store untouched. -/
theorem C9_batch_staging_frame_witness :
    (∀ op ∈ [IndexAction.stageSet "a" "1", IndexAction.stageDelete "b",
      IndexAction.stageSet "c" "2"], op.isStaging = true) ∧
    (indexRun ⟨[("k", "v")], BeginBatch⟩
      [IndexAction.stageSet "a" "1", IndexAction.stageDelete "b",
        IndexAction.stageSet "c" "2"]).store = [("k", "v")] :=
  ⟨by decide, C9_batch_staging_frame [("k", "v")] _ (by decide)⟩
end Camli
